import Mathlib

/-
Verification of the telepirate task-lifecycle and download-orchestration
engine.  The Rust source is shallowly embedded: pure functions become Lean
functions, stateful code becomes explicit state passing, process-terminating
code paths (`die`, `.unwrap()` panics) become `none` / `Except.error`
results, and the filesystem, cancellation registry and persistence layer are
explicit data.  Machine integers are modelled as `Nat` (no overflow is
relevant: sizes and counters stay far below 2^64).
-/

set_option autoImplicit false

namespace Telepirate

/-! ## Identifiers (src/task/id.rs, teloxide ChatId)

`TaskId` wraps a 128-bit random UUID; equality and hashing are by value, so
the UUID is embedded as an opaque `Nat`.  `TaskId.display` models the
`Display` implementation (the hyphenated-hex rendering is abstracted by the
injective decimal rendering of the embedded value). -/

structure TaskId where
  uuid : Nat
deriving DecidableEq, Repr

def TaskId.display (t : TaskId) : String :=
  toString t.uuid

structure ChatId where
  id : Int
deriving DecidableEq, Repr

/-! ## Media types (src/task/mediatype.rs) -/

inductive MediaType where
  | Mp3
  | Mp4
  | Voice
deriving DecidableEq, Repr

/-- `MediaType::as_str` from src/task/mediatype.rs: the file-extension filter
used when collecting output. -/
def MediaType.as_str : MediaType → String
  | .Mp3 => "mp3"
  | .Mp4 => "mp4"
  | .Voice => "opus"

/-! ## Filesystem model

Working directories live under `FILE_STORAGE` (src/main.rs).  A filesystem
is the finite set of existing directories, each with its file listing; a
file has a (full path) name and a byte size.  This is the state touched by
`cleanup`, `create_dir_all` and the download post-processing. -/

def FILE_STORAGE : String :=
  "/tmp/telepirate-downloads"

/-- `construct_destination_path` from src/task/download.rs. -/
def construct_destination_path (task_id : String) : String :=
  FILE_STORAGE ++ ("/") ++ task_id

structure FileEntry where
  name : String
  size : Nat
deriving DecidableEq, Repr

structure Fs where
  dirs : List (String × List FileEntry)
deriving DecidableEq, Repr

def Fs.hasDir (fs : Fs) (p : String) : Bool :=
  fs.dirs.any (fun d => d.1 == p)

def Fs.contents (fs : Fs) (p : String) : Option (List FileEntry) :=
  (fs.dirs.find? (fun d => d.1 == p)).map (fun d => d.2)

/-- `std::fs::remove_dir_all`: deletes the directory recursively; it is an
error (`none`) if the directory does not exist. -/
def remove_dir_all (fs : Fs) (p : String) : Option Fs :=
  if fs.hasDir p then some ⟨fs.dirs.filter (fun d => !(d.1 == p))⟩ else none

/-- `cleanup` from src/misc.rs: `remove_dir_all(path).unwrap()`.  The unwrap
is unguarded, so a missing directory panics and terminates the process;
the panic is modelled as `none`. -/
def cleanup (fs : Fs) (p : String) : Option Fs :=
  remove_dir_all fs p

/-- `std::fs::create_dir_all`: succeeds whether or not the directory already
exists. -/
def create_dir_all (fs : Fs) (p : String) : Fs :=
  if fs.hasDir p then fs else ⟨fs.dirs ++ [(p, [])]⟩

/-- The supervisor's working-directory preparation (src/task/download.rs
lines 160-168 together with the `create_dir_all` at the start of `yt_dlp`):
`cleanup(path)` (clear) followed by `create_dir_all(path)` (create).
`none` models the process aborting inside `cleanup`. -/
def prepare_working_directory (fs : Fs) (p : String) : Option Fs :=
  (cleanup fs p).map (fun fs2 => create_dir_all fs2 p)

/-! ## Cancellation registry (src/task/cancellation.rs)

The process-wide `TASK_REGISTRY` is a mutex-guarded `HashMap<TaskId,
CancellationToken>`.  Tokens are runtime objects identified here by a `Nat`;
a cancelled token is recorded in the `cancelled` list of the world.  The
`HashMap` (at most one entry per key) is embedded as an association list in
which `register_task` replaces any existing entry. -/

def lookupToken (reg : List (TaskId × Nat)) (id : TaskId) : Option Nat :=
  (reg.find? (fun e => e.1 == id)).map (fun e => e.2)

def removeToken (reg : List (TaskId × Nat)) (id : TaskId) : List (TaskId × Nat) :=
  reg.filter (fun e => !(e.1 == id))

/-- `CancellationRegistry::register_task`: `HashMap::insert` overwrites any
existing entry for the key. -/
def register_task (reg : List (TaskId × Nat)) (id : TaskId) (tok : Nat) :
    List (TaskId × Nat) :=
  (id, tok) :: removeToken reg id

/-- `CancellationRegistry::remove_task`: `HashMap::remove`, the result
discarded. -/
def remove_task (reg : List (TaskId × Nat)) (id : TaskId) : List (TaskId × Nat) :=
  removeToken reg id

/-- The world visible to `cancel_task`: the registry, the set of tokens that
have been signalled, and the filesystem. -/
structure CancelWorld where
  registry : List (TaskId × Nat)
  cancelled : List Nat
  fs : Fs
deriving DecidableEq, Repr

/-- `CancellationRegistry::cancel_task` from src/task/cancellation.rs:
remove the entry; if one existed, signal the token, delete the task's
working directory (`cleanup`, whose unguarded unwrap panics when the
directory does not exist — modelled as `none`), and return `true`;
otherwise return `false` having touched nothing. -/
def cancel_task (w : CancelWorld) (id : TaskId) : Option (Bool × CancelWorld) :=
  match lookupToken w.registry id with
  | some tok =>
      let w1 : CancelWorld :=
        { registry := removeToken w.registry id
          cancelled := tok :: w.cancelled
          fs := w.fs }
      match cleanup w1.fs (construct_destination_path (TaskId.display id)) with
      | some fs2 => some (true, { w1 with fs := fs2 })
      | none => none
  | none => some (false, w)

/-! ## Delivery engine: `TaskDownload::send_file` (src/task/download.rs 95-143)

`send_file` attempts the transport send up to `max_retries = 10` times.  The
transport outcome of attempt `n` is the parameter `attemptOk n`.  On success
it returns `Ok(())` immediately.  On failure it sleeps, logs, and — only
when `attempt < max_retries` — reports the failure text to the chat
(`send_and_remember_msg`, modelled as always succeeding; the reported
attempt numbers are collected in `reported`).  The `Err(...)` return after
the loop is commented out in the source, so falling out of the loop yields
`Ok(for ...)` = `Ok(())`. -/

instance exceptDecEq {ε α : Type} [DecidableEq ε] [DecidableEq α] :
    DecidableEq (Except ε α) := fun a b =>
  match a, b with
  | Except.error e, Except.error f =>
      if h : e = f then isTrue (by rw [h]) else isFalse (by simp [h])
  | Except.ok x, Except.ok y =>
      if h : x = y then isTrue (by rw [h]) else isFalse (by simp [h])
  | Except.error _, Except.ok _ => isFalse (fun h => Except.noConfusion h)
  | Except.ok _, Except.error _ => isFalse (fun h => Except.noConfusion h)

def max_retries : Nat :=
  10

structure SendFileOut where
  result : Except String Unit
  reported : List Nat
  attemptsMade : Nat
deriving DecidableEq, Repr

/-- The `for attempt in 1..=max_retries` loop of `send_file`; `fuel` is the
number of remaining iterations and `attempt` the current attempt number. -/
def send_file_go (attemptOk : Nat → Bool) : Nat → Nat → SendFileOut
  | 0, _ => { result := Except.ok (), reported := [], attemptsMade := 0 }
  | fuel + 1, attempt =>
    if attemptOk attempt then
      { result := Except.ok (), reported := [], attemptsMade := 1 }
    else
      let rest := send_file_go attemptOk fuel (attempt + 1)
      { result := rest.result
        reported := (if attempt < max_retries then [attempt] else []) ++ rest.reported
        attemptsMade := 1 + rest.attemptsMade }

def send_file (attemptOk : Nat → Bool) : SendFileOut :=
  send_file_go attemptOk max_retries 1

/-! ## Download supervisor: `yt_dlp` control flow (src/task/download.rs 311-397)

The async body is embedded as a timed trace over an abstract discrete
clock.  The environment fixes when the external events become ready:
`streamsEofTime` is when both spawned drain tasks finish (their
`next_line` loops end at pipe EOF), `exitTime` is when `child.wait()`
becomes ready, `cancelTime` is when the cancellation token fires (if
ever), and `killLatency` is the cost of `child.kill()` plus the reaping
`wait_with_output`.

The embedded control flow follows the source order:
1. `create_dir_all`, spawn the child, spawn both drain tasks;
2. `tokio::join!(stdout_task, stderr_task)` — suspends until
   `streamsEofTime`;
3. only then `tokio::select!` between `child.wait()` and
   `cancellation_token.cancelled()`; the branch whose readiness time is
   strictly smaller wins (the exit branch is taken on a tie — on a tie both
   are ready and either branch returns no earlier than that same time). -/

structure YtEnv where
  streamsEofTime : Nat
  exitTime : Nat
  cancelTime : Option Nat
  killLatency : Nat
deriving DecidableEq, Repr

inductive YtOutcome where
  | completed
  | cancelled
deriving DecidableEq, Repr

/-- Embedded `yt_dlp`: outcome and the absolute time at which the call
returns. -/
def yt_dlp_run (env : YtEnv) : YtOutcome × Nat :=
  let joinDone := env.streamsEofTime
  let readyExit := max joinDone env.exitTime
  match env.cancelTime with
  | none => (YtOutcome.completed, readyExit)
  | some c =>
      let readyCancel := max joinDone c
      if readyCancel < readyExit then
        (YtOutcome.cancelled, readyCancel + env.killLatency)
      else
        (YtOutcome.completed, readyExit)

/-- Modelled from the spec: the claimed behaviour — "while the external
downloader subprocess is running, the supervisor races the subprocess's exit
against the cancellation signal", so the `select` starts at spawn time and a
cancellation that fires before the exit kills the child and returns within
`killLatency`. -/
def yt_dlp_claimed_run (env : YtEnv) : YtOutcome × Nat :=
  match env.cancelTime with
  | none => (YtOutcome.completed, max env.streamsEofTime env.exitTime)
  | some c =>
      if c < env.exitTime then (YtOutcome.cancelled, c + env.killLatency)
      else (YtOutcome.completed, max env.streamsEofTime env.exitTime)

/-! ## Download post-processing (src/task/download.rs 169-219)

After `yt_dlp` returns, the working directory is scanned with
`glob("{dir}/*{ext}")`; each matching file under the 2,000,000,000-byte
threshold is collected, with one rename rule: if the full path matches the
regex `(.*)(\.opus)`, the matched text (the path up to the *last*
occurrence of `.opus` — `.*` is greedy) is renamed via `std::fs::rename`
to `{dir}/audio_{timestamp}.ogg`, and the renamed path is collected
instead.  A failing `rename` (source path absent) propagates with `?`.
Zero collected files is an error regardless of the child's exit status. -/

def opusPat : List Char :=
  ['.', 'o', 'p', 'u', 's']

/-- Does an occurrence of `.opus` end at position `k` of `cs`? -/
def opusEndAt (cs : List Char) (k : Nat) : Bool :=
  decide (5 ≤ k) && decide (k ≤ cs.length) && ((cs.take k).drop (k - 5) == opusPat)

/-- The Rust regex `(.*)(\.opus)` applied by `Regex::captures`:
`captures.get(0)` is the whole match, which runs from the start of the
string to the end of the last `.opus` occurrence (greedy `.*`).  `none`
when the regex does not match. -/
def opusMatch (s : String) : Option String :=
  match ((List.range (s.toList.length + 1)).filter (fun k => opusEndAt s.toList k)).getLast? with
  | some k => some ⟨s.toList.take k⟩
  | none => none

def listEnds (pat cs : List Char) : Bool :=
  pat.reverse.isPrefixOf cs.reverse

def noSlash (cs : List Char) : Bool :=
  cs.all (fun c => !(c == '/'))

/-- Full path `name` matches the glob pattern `{dirPath}/*{ext}`: it is
`dirPath ++ "/" ++ base` where `base` contains no `/` and ends with `ext`
(`*` matches any, possibly empty, slash-free text). -/
def globMatch (dirPath ext name : String) : Bool :=
  let dp := (dirPath ++ ("/")).toList
  dp.isPrefixOf name.toList
    && noSlash (name.toList.drop dp.length)
    && listEnds ext.toList (name.toList.drop dp.length)

/-- Telegram's bot-upload limit: files at or above this size are skipped. -/
def threshold : Nat :=
  2000000000

/-- The rename target `"{dir}/audio_{timestamp}.ogg"`. -/
def newnameFor (dirPath ts : String) : String :=
  dirPath ++ ("/audio_") ++ ts ++ (".ogg")

def lookupName (d : List FileEntry) (x : String) : Option FileEntry :=
  d.find? (fun f => f.name == x)

/-- Effect of a successful `std::fs::rename(old, new)` on the directory
listing: `old` disappears, any file already at `new` is replaced, and the
renamed file keeps its size. -/
def renameEntry (d : List FileEntry) (old nw : String) (sz : Nat) : List FileEntry :=
  d.filter (fun f => !(f.name == old) && !(f.name == nw)) ++ [⟨nw, sz⟩]

/-- The collection loop of `download_and_send_files`: `todo` is the list of
glob-matched full paths (from the listing at glob time), `d` the current
directory listing, `paths` the accumulated `paths` vector and `rens` the
renames performed so far.  Errors are the `?`-propagated failures
(`metadata()` on a vanished path, `std::fs::rename` with an absent
source). -/
def collectLoop (dirPath ts : String) :
    List String → List FileEntry → List String → List (String × String) →
      Except String (List String × List (String × String) × List FileEntry)
  | [], d, paths, rens => Except.ok (paths, rens, d)
  | full :: rest, d, paths, rens =>
    match lookupName d full with
    | none => Except.error (("metadata failed: ") ++ full)
    | some f =>
      if f.size < threshold then
        match opusMatch full with
        | some old =>
          match lookupName d old with
          | some g =>
              let nw := newnameFor dirPath ts
              collectLoop dirPath ts rest (renameEntry d old nw g.size)
                (paths ++ [nw]) (rens ++ [(old, nw)])
          | none => Except.error (("rename failed: ") ++ old)
        | none => collectLoop dirPath ts rest d (paths ++ [full]) rens
      else
        collectLoop dirPath ts rest d paths rens

/-- Post-processing and result classification of
`download_and_send_files` (src/task/download.rs 169-219): glob the
directory, run the collection loop, then classify — zero collected files is
an error whose text comes from `ytdresult` (the child's combined output on
`Ok`, the propagated error otherwise); one or more files is success.  The
returned pair is the collected paths and the renames performed. -/
def download_post (mt : MediaType) (dirPath ts : String) (d : List FileEntry)
    (ytdresult : Except String String) :
    Except String (List String × List (String × String)) :=
  let todo := (d.filter (fun f => globMatch dirPath mt.as_str f.name)).map (fun f => f.name)
  match collectLoop dirPath ts todo d [] [] with
  | Except.error e => Except.error e
  | Except.ok (paths, rens, _) =>
    if paths.length = 0 then
      match ytdresult with
      | Except.ok traceback => Except.error traceback
      | Except.error traceback => Except.error traceback
    else
      Except.ok (paths, rens)

/-- A glob-matched name is rename-safe when, if the `.opus` regex matches
its full path at all, the match is the whole path (equivalently the path
ends in `.opus`), so the `std::fs::rename` source is the globbed file
itself.  Every name that does not contain `.opus` is rename-safe. -/
def renameSafe (name : String) : Bool :=
  match opusMatch name with
  | some old => old == name
  | none => true

/-! ## Task data (src/task/simple.rs, src/task/download.rs, src/task/stats.rs)

URLs are embedded as their string rendering. -/

structure TaskSimple where
  task_id : TaskId
  chat_id : ChatId
deriving DecidableEq, Repr

structure TaskDownload where
  task_id : TaskId
  chat_id : ChatId
  media_type : MediaType
  url : Option String
deriving DecidableEq, Repr

structure TaskStats where
  task_id : TaskId
  chat_id : ChatId
  media_type : MediaType
  url : String
deriving DecidableEq, Repr

def TaskSimple.to_task_download (t : TaskSimple) (mt : MediaType) : TaskDownload :=
  { task_id := t.task_id, chat_id := t.chat_id, media_type := mt, url := none }

def TaskDownload.set_url (t : TaskDownload) (u : String) : TaskDownload :=
  { t with url := some u }

/-- `TaskDownload::to_task_stats`: unwraps the URL ( `none` models the
panic when it is absent). -/
def TaskDownload.to_task_stats (t : TaskDownload) : Option TaskStats :=
  t.url.map (fun u =>
    { task_id := t.task_id, chat_id := t.chat_id, media_type := t.media_type, url := u })

/-! ## Task state machine (src/task/state.rs) -/

inductive TaskState where
  | New (t : TaskSimple)
  | WaitingForUrl (t : TaskDownload)
  | Running (t : TaskDownload)
  | Success (t : TaskStats)
  | Failure (t : TaskStats)
deriving DecidableEq, Repr

def TaskState.task_id : TaskState → TaskId
  | .New t => t.task_id
  | .WaitingForUrl t => t.task_id
  | .Running t => t.task_id
  | .Success t => t.task_id
  | .Failure t => t.task_id

def TaskState.isRunning : TaskState → Bool
  | .Running _ => true
  | _ => false

/-- Persistent state: the `TaskState` table of the record store (one row per
persisted record) together with the runtime-only cancellation registry. -/
structure Persist where
  db : List TaskState
  registry : List (TaskId × Nat)
deriving DecidableEq, Repr

/-- `update_by_task_id` (src/task/state.rs): `UPDATE ... CONTENT $self WHERE
data.task_id = $task_id` — every record with the same task id is replaced by
the new state. -/
def updateByTaskId (db : List TaskState) (s : TaskState) : List TaskState :=
  db.map (fun r => if r.task_id == s.task_id then s else r)

/-- `TaskState::to_waiting_for_url`: legal only on `New` (any other source
state calls `die`, terminating the process before any write — modelled as
`none` with the persistent state untouched).  On the legal source the new
state replaces the old record and becomes the in-memory value. -/
def TaskState.to_waiting_for_url (s : TaskState) (mt : MediaType) (p : Persist) :
    Option (TaskState × Persist) :=
  match s with
  | .New t =>
      let s2 := TaskState.WaitingForUrl (t.to_task_download mt)
      some (s2, { p with db := updateByTaskId p.db s2 })
  | _ => none

/-- `TaskState::to_running`: legal only on `WaitingForUrl`; sets the URL,
persists the `Running` record and registers the cancellation token. -/
def TaskState.to_running (s : TaskState) (u : String) (tok : Nat) (p : Persist) :
    Option (TaskState × Persist) :=
  match s with
  | .WaitingForUrl t =>
      let t2 := t.set_url u
      let s2 := TaskState.Running t2
      some (s2, { db := updateByTaskId p.db s2
                  registry := register_task p.registry t2.task_id tok })
  | _ => none

/-- `TaskState::to_success`: legal only on `Running`; persists the `Success`
record and removes the cancellation-registry entry. -/
def TaskState.to_success (s : TaskState) (p : Persist) : Option (TaskState × Persist) :=
  match s with
  | .Running t =>
      match t.to_task_stats with
      | some st =>
          let s2 := TaskState.Success st
          some (s2, { db := updateByTaskId p.db s2
                      registry := remove_task p.registry st.task_id })
      | none => none
  | _ => none

/-- `TaskState::to_failure`: legal only on `Running`; persists the `Failure`
record and removes the cancellation-registry entry. -/
def TaskState.to_failure (s : TaskState) (p : Persist) : Option (TaskState × Persist) :=
  match s with
  | .Running t =>
      match t.to_task_stats with
      | some st =>
          let s2 := TaskState.Failure st
          some (s2, { db := updateByTaskId p.db s2
                      registry := remove_task p.registry st.task_id })
      | none => none
  | _ => none

/-- One observable lifecycle step: some transition function, invoked with
some auxiliary data and persistence handle, succeeded. -/
inductive Step : TaskState → TaskState → Prop where
  | toWaiting {s : TaskState} (mt : MediaType) (p : Persist) (r : TaskState × Persist) :
      TaskState.to_waiting_for_url s mt p = some r → Step s r.1
  | toRunning {s : TaskState} (u : String) (tok : Nat) (p : Persist) (r : TaskState × Persist) :
      TaskState.to_running s u tok p = some r → Step s r.1
  | toSuccess {s : TaskState} (p : Persist) (r : TaskState × Persist) :
      TaskState.to_success s p = some r → Step s r.1
  | toFailure {s : TaskState} (p : Persist) (r : TaskState × Persist) :
      TaskState.to_failure s p = some r → Step s r.1

/-- `Trace s l`: `l` is the sequence of in-memory (equivalently persisted)
states of one task, starting at `s`, produced by successive transitions. -/
inductive Trace : TaskState → List TaskState → Prop where
  | single (s : TaskState) : Trace s [s]
  | step {s s2 : TaskState} {l : List TaskState} :
      Step s s2 → Trace s2 l → Trace s (s :: l)

inductive Phase where
  | new
  | waitingForUrl
  | running
  | success
  | failure
deriving DecidableEq, Repr

def TaskState.phase : TaskState → Phase
  | .New _ => Phase.new
  | .WaitingForUrl _ => Phase.waitingForUrl
  | .Running _ => Phase.running
  | .Success _ => Phase.success
  | .Failure _ => Phase.failure

/-! ## Engine boot (src/engine.rs `run`, lines 71-102)

`run` initializes the bot and the database, then — before the dispatcher is
built and starts accepting events — loads all persisted task states,
filters the `Running` ones and drives each through `to_failure`.
`engine_run_boot` returns the persistent state at the moment the dispatcher
starts (`none` if a `die`/panic occurred first, in which case no event is
ever processed). -/

/-- Modelled from the spec: `TaskState::from_db_all` is commented out in
src/task/state.rs (only its caller in src/engine.rs remains); per the
spec's persistence boundary ("select-all-of-a-given-kind") it returns every
persisted record of the `TaskState` table. -/
def from_db_all (db : List TaskState) : List TaskState :=
  db

def engine_run_boot (p : Persist) : Option Persist :=
  let tasks := (from_db_all p.db).filter (fun s => s.isRunning)
  tasks.foldl
    (fun acc task => acc.bind (fun q => (TaskState.to_failure task q).map (fun r => r.2)))
    (some p)

/-- Whether a record is well-formed for boot recovery: a persisted `Running`
record always carries a URL (it was written by `to_running`). -/
def TaskState.urlReady : TaskState → Bool
  | .Running t => t.url.isSome
  | _ => true

/-- The state a `Running` record is replaced with by boot recovery: the
`Failure` produced by `to_failure` (identity on records `to_failure` would
not touch). -/
def failureOf : TaskState → TaskState
  | .Running t =>
    match t.url with
    | some u => TaskState.Failure { task_id := t.task_id, chat_id := t.chat_id, media_type := t.media_type, url := u }
    | none => TaskState.Running t
  | s => s

/-! ## Progress poller (src/trackedmessage.rs 68-135)

`directory_size_poller_and_message_updater` loops on a 5-second interval;
each tick samples the working directory (`FolderData`), formats the status
string, and issues `edit_message_text` if and only if the string differs
from the one remembered in `previous_update_text` (which is updated
whenever an edit is issued).  The cancellation branch ends the loop with an
unconditional final edit.  The `{:.2} MB` floating-point rendering of
`format_bytes_to_megabytes` is kept abstract as the `formatMB` parameter;
each tick's observation is a `FolderData`. -/

structure FolderData where
  file_count : Nat
  size_in_bytes : Nat
deriving DecidableEq, Repr

/-- The formatted status string of one tick (the `update_text` of the
source; `formatMB` renders the byte total, " MB" suffix included). -/
def update_text (formatMB : Nat → String) (fd : FolderData) : String :=
  ("Downloading... Please wait.\nFiles to send: ") ++ toString fd.file_count
    ++ (".\nTotal size: ") ++ formatMB fd.size_in_bytes ++ (".")

/-- Edit decisions of the periodic loop: one `Bool` per tick — `true` when
that tick issued exactly one `edit_message_text` call, `false` when it
issued none.  `prev` is `previous_update_text` (initially `""`). -/
def poller_edit_flags (formatMB : Nat → String) :
    List FolderData → String → List Bool
  | [], _ => []
  | fd :: rest, prev =>
    let text := update_text formatMB fd
    if text = prev then
      false :: poller_edit_flags formatMB rest prev
    else
      true :: poller_edit_flags formatMB rest text

/-! ## Helper lemmas -/

theorem lookupToken_removeToken (reg : List (TaskId × Nat)) (id : TaskId) :
    lookupToken (removeToken reg id) id = none := by
  simp only [lookupToken, removeToken, Option.map_eq_none']
  rw [List.find?_eq_none]
  intro x hx
  have h2 := (List.mem_filter.mp hx).2
  rw [Bool.not_eq_true'] at h2
  simp [h2]

theorem hasDir_filter_self (l : List (String × List FileEntry)) (p : String) :
    Fs.hasDir ⟨l.filter (fun d => !(d.1 == p))⟩ p = false := by
  unfold Fs.hasDir
  rw [List.any_eq_false]
  intro x hx
  have h2 := (List.mem_filter.mp hx).2
  rw [Bool.not_eq_true'] at h2
  simp [h2]

theorem find?_filter_ne {α : Type} (l : List α) (keep q : α → Bool)
    (h : ∀ a, q a = true → keep a = true) : (l.filter keep).find? q = l.find? q := by
  induction l with
  | nil => rfl
  | cons a l ih =>
    rw [List.filter_cons]
    by_cases hq : q a = true
    · rw [if_pos (h a hq)]
      simp [List.find?_cons, hq, ih]
    · have hqf : q a = false := Bool.eq_false_iff.mpr hq
      by_cases hk : keep a = true
      · rw [if_pos hk]
        simp [List.find?_cons, hqf, ih]
      · rw [if_neg hk, ih]
        simp [List.find?_cons, hqf]

/-! ## Claim C9 -/

/-- C9: for every task id with no entry in the cancellation registry,
`cancel_task` returns `false` and has no side effects — the registry, the
set of signalled tokens and the filesystem are returned unchanged (the
result world is exactly the input world), and no panic occurs. -/
theorem C9_cancel_missing (w : CancelWorld) (id : TaskId)
    (h : lookupToken w.registry id = none) :
    cancel_task w id = some (false, w) := by
  simp [cancel_task, h]

theorem C9_witness :
    cancel_task ⟨[], [], ⟨[]⟩⟩ ⟨0⟩ = some (false, ⟨[], [], ⟨[]⟩⟩) :=
  C9_cancel_missing ⟨[], [], ⟨[]⟩⟩ ⟨0⟩ rfl

/-! ## Claim C10 -/

/-- C10: for a registered task id, `cancel_task` removes the entry, signals
the token, deletes the task's working directory and returns `true`; when
that directory does not exist, the unguarded `remove_dir_all(..).unwrap()`
inside `cleanup` panics and aborts the process (`none`) instead of
returning. -/
theorem C10_cancel_registered (w : CancelWorld) (id : TaskId) (tok : Nat)
    (h : lookupToken w.registry id = some tok) :
    (∀ fs2, cleanup w.fs (construct_destination_path (TaskId.display id)) = some fs2 →
        cancel_task w id =
          some (true, { registry := removeToken w.registry id
                        cancelled := tok :: w.cancelled
                        fs := fs2 }) ∧
        lookupToken (removeToken w.registry id) id = none ∧
        Fs.hasDir fs2 (construct_destination_path (TaskId.display id)) = false) ∧
      (cleanup w.fs (construct_destination_path (TaskId.display id)) = none →
        cancel_task w id = none) := by
  constructor
  · intro fs2 hc
    refine ⟨by simp [cancel_task, h, hc], lookupToken_removeToken w.registry id, ?_⟩
    have h2 := hc
    unfold cleanup remove_dir_all at h2
    split at h2
    · cases h2
      exact hasDir_filter_self _ _
    · cases h2
  · intro hc
    simp [cancel_task, h, hc]

theorem C10_witness :
    cancel_task
        ⟨[(⟨0⟩, 5)], [],
          ⟨[(construct_destination_path (TaskId.display ⟨0⟩), [⟨"a.mp3", 3⟩])]⟩⟩ ⟨0⟩ =
      some (true, ⟨[], [5], ⟨[]⟩⟩) :=
  ((C10_cancel_registered
      ⟨[(⟨0⟩, 5)], [],
        ⟨[(construct_destination_path (TaskId.display ⟨0⟩), [⟨"a.mp3", 3⟩])]⟩⟩
      ⟨0⟩ 5 rfl).1 ⟨[]⟩ rfl).1

/-! ## Claim C8 -/

/-- C8, counterexample: preparing the working directory when the directory
does not yet exist aborts the process — `cleanup` unwraps
`remove_dir_all`, which errors on a missing directory, so the claimed
"succeeds ... when the directory does not yet exist, never aborting the
process" is false on an empty filesystem. -/
theorem C8_counterexample :
    prepare_working_directory ⟨[]⟩ (construct_destination_path (TaskId.display ⟨0⟩)) =
      none := rfl

/-- C8, amended: preparation (clear then create) succeeds exactly when the
directory already exists — stale files from a prior attempt are cleared and
an empty directory results; when the directory does not exist, the
unguarded unwrap inside `cleanup` aborts the process. -/
theorem C8_prepare_amended (fs : Fs) (p : String) :
    (Fs.hasDir fs p = true →
        prepare_working_directory fs p =
          some (create_dir_all ⟨fs.dirs.filter (fun d => !(d.1 == p))⟩ p) ∧
        ∀ fs2, prepare_working_directory fs p = some fs2 → Fs.contents fs2 p = some []) ∧
      (Fs.hasDir fs p = false → prepare_working_directory fs p = none) := by
  constructor
  · intro h
    have hprep : prepare_working_directory fs p =
        some (create_dir_all ⟨fs.dirs.filter (fun d => !(d.1 == p))⟩ p) := by
      simp [prepare_working_directory, cleanup, remove_dir_all, h]
    refine ⟨hprep, ?_⟩
    intro fs2 h2
    rw [hprep] at h2
    cases h2
    rw [create_dir_all, if_neg (by rw [hasDir_filter_self]; exact Bool.false_ne_true)]
    unfold Fs.contents
    rw [List.find?_append]
    have hnone : (fs.dirs.filter (fun d => !(d.1 == p))).find? (fun d => d.1 == p) = none := by
      rw [List.find?_eq_none]
      intro x hx
      have h2 := (List.mem_filter.mp hx).2
      rw [Bool.not_eq_true'] at h2
      simp [h2]
    rw [hnone]
    simp [List.find?_cons]
  · intro h
    simp [prepare_working_directory, cleanup, remove_dir_all, h]

theorem C8_witness :
    prepare_working_directory ⟨[(("d"), [⟨"d/f.mp3", 3⟩])]⟩ ("d") =
        some ⟨[(("d"), [])]⟩ ∧
      Fs.contents ⟨[(("d"), [])]⟩ ("d") = some [] := by
  have h := (C8_prepare_amended ⟨[(("d"), [⟨"d/f.mp3", 3⟩])]⟩ ("d")).1 rfl
  exact ⟨h.1, h.2 ⟨[(("d"), [])]⟩ h.1⟩

/-! ## Claim C1 -/

/-- C1, counterexample: when every one of the 10 permitted attempts fails,
`send_file` returns `Ok(())` — not an error result — because the
`Err(...)` return after the retry loop is commented out in the source.  The
loop does stop after attempt 10 (`attemptsMade = 10`, no further retries)
and reports the failure text to the chat on attempts 1-9 but not on the
last, so only the "surfaces an explicit failure" part of the claim is
false. -/
theorem C1_counterexample :
    send_file (fun _ => false) =
      { result := Except.ok ()
        reported := [1, 2, 3, 4, 5, 6, 7, 8, 9]
        attemptsMade := 10 } := by
  rfl

/-- C1, amended: if all 10 permitted attempts at sending the file fail, the
delivery call returns success (`Ok(())`) — the exhaustion is only logged,
not surfaced as an error result — after performing exactly 10 attempts (no
further retries) and reporting the intermediate failure text to the chat on
every failed attempt except the last (attempts 1 through 9). -/
theorem C1_amended_send_file (attemptOk : Nat → Bool)
    (h : ∀ a, 1 ≤ a → a ≤ max_retries → attemptOk a = false) :
    send_file attemptOk =
      { result := Except.ok ()
        reported := [1, 2, 3, 4, 5, 6, 7, 8, 9]
        attemptsMade := 10 } := by
  have h1 := h 1 (by decide) (by decide)
  have h2 := h 2 (by decide) (by decide)
  have h3 := h 3 (by decide) (by decide)
  have h4 := h 4 (by decide) (by decide)
  have h5 := h 5 (by decide) (by decide)
  have h6 := h 6 (by decide) (by decide)
  have h7 := h 7 (by decide) (by decide)
  have h8 := h 8 (by decide) (by decide)
  have h9 := h 9 (by decide) (by decide)
  have h10 := h 10 (by decide) (by decide)
  simp [send_file, send_file_go, max_retries, h1, h2, h3, h4, h5, h6, h7, h8, h9, h10]

theorem C1_witness :
    send_file (fun _ => false) =
      { result := Except.ok ()
        reported := [1, 2, 3, 4, 5, 6, 7, 8, 9]
        attemptsMade := 10 } :=
  C1_amended_send_file (fun _ => false) (fun _ _ _ => rfl)

/-! ## Claim C2 -/

/-- C2: the claim is right and the code is wrong (code bug).  The source
awaits `tokio::join!(stdout_task, stderr_task)` — which completes only when
both pipes reach EOF, i.e. essentially when the child exits — *before* the
`select!` that watches the cancellation token, so the cancellation signal
is never consulted while the subprocess is running.  First conjunct: for
every environment the call returns no earlier than the stream-EOF time.
Second and third conjuncts: in the concrete environment where cancellation
fires at t=1, the child runs until t=100 with its streams open until exit,
and killing takes 1 tick, the embedded code returns the *completed* outcome
at t=100 while the claimed behaviour is a cancellation-kind failure at
t=2. -/
theorem C2_join_gates_cancellation :
    (∀ env : YtEnv, env.streamsEofTime ≤ (yt_dlp_run env).2) ∧
      yt_dlp_run ⟨100, 100, some 1, 1⟩ = (YtOutcome.completed, 100) ∧
      yt_dlp_claimed_run ⟨100, 100, some 1, 1⟩ = (YtOutcome.cancelled, 2) := by
  refine ⟨?_, by decide, by decide⟩
  intro env
  unfold yt_dlp_run
  cases hc : env.cancelTime with
  | none => exact Nat.le_max_left _ _
  | some c =>
    by_cases hlt : max env.streamsEofTime c < max env.streamsEofTime env.exitTime
    · simp only [hlt, if_true]
      exact Nat.le_trans (Nat.le_max_left _ _) (Nat.le_add_right _ _)
    · simp only [hlt, if_false]
      exact Nat.le_max_left _ _

/-! ## Claim C7 -/

theorem poller_edit_flags_cons (formatMB : Nat → String) (fd : FolderData)
    (rest : List FolderData) (prev : String) :
    poller_edit_flags formatMB (fd :: rest) prev =
      (if update_text formatMB fd = prev then false else true) ::
        poller_edit_flags formatMB rest (update_text formatMB fd) := by
  by_cases h : update_text formatMB fd = prev
  · simp [poller_edit_flags, h]
  · simp [poller_edit_flags, h]

theorem poller_flags_consec (formatMB : Nat → String) :
    ∀ (l1 : List FolderData) (a b : FolderData) (l2 : List FolderData) (prev : String),
      (poller_edit_flags formatMB (l1 ++ a :: b :: l2) prev)[l1.length + 1]? =
        some (if update_text formatMB b = update_text formatMB a then false else true) := by
  intro l1
  induction l1 with
  | nil =>
    intro a b l2 prev
    rw [List.nil_append, poller_edit_flags_cons, poller_edit_flags_cons]
    simp
  | cons c l1 ih =>
    intro a b l2 prev
    rw [List.cons_append, poller_edit_flags_cons]
    have hlen : (c :: l1).length + 1 = (l1.length + 1) + 1 := by simp
    rw [hlen, List.getElem?_cons_succ]
    exact ih a b l2 _

/-- C7: in the periodic loop of the progress poller, a tick issues exactly
one edit call if and only if the newly formatted status string differs from
the last one sent, which (because `previous_update_text` is updated exactly
when an edit is issued, and two equal strings leave it equal to both)
always equals the preceding tick's formatted string — the initial
`previous_update_text` for the first tick.  Hence two consecutive ticks
formatting identical strings never produce two edit calls, and a tick whose
string changed produces exactly one. -/
theorem C7_poller_edits (formatMB : Nat → String) (ticks : List FolderData) (prev : String) :
    (poller_edit_flags formatMB ticks prev).length = ticks.length ∧
      (∀ a l2, ticks = a :: l2 →
          (poller_edit_flags formatMB ticks prev)[0]? =
            some (if update_text formatMB a = prev then false else true)) ∧
      (∀ l1 a b l2, ticks = l1 ++ a :: b :: l2 →
          (poller_edit_flags formatMB ticks prev)[l1.length + 1]? =
            some (if update_text formatMB b = update_text formatMB a then false
                  else true)) := by
  refine ⟨?_, ?_, ?_⟩
  · induction ticks generalizing prev with
    | nil => rfl
    | cons fd rest ih => rw [poller_edit_flags_cons, List.length_cons, List.length_cons, ih]
  · intro a l2 h
    subst h
    rw [poller_edit_flags_cons]
    simp
  · intro l1 a b l2 h
    subst h
    exact poller_flags_consec formatMB l1 a b l2 prev

theorem C7_witness :
    (poller_edit_flags (fun _ => ("0.00 MB")) [⟨0, 0⟩, ⟨0, 0⟩, ⟨1, 0⟩] (""))[1]? =
        some false ∧
      (poller_edit_flags (fun _ => ("0.00 MB")) [⟨0, 0⟩, ⟨0, 0⟩, ⟨1, 0⟩] (""))[2]? =
        some true := by
  constructor
  · have h := (C7_poller_edits (fun _ => ("0.00 MB")) [⟨0, 0⟩, ⟨0, 0⟩, ⟨1, 0⟩] ("")).2.2
      [] ⟨0, 0⟩ ⟨0, 0⟩ [⟨1, 0⟩] rfl
    simpa using h
  · have h := (C7_poller_edits (fun _ => ("0.00 MB")) [⟨0, 0⟩, ⟨0, 0⟩, ⟨1, 0⟩] ("")).2.2
      [⟨0, 0⟩] ⟨0, 0⟩ ⟨1, 0⟩ [] rfl
    rw [if_neg (by decide)] at h
    simpa using h

/-! ## Claim C4 -/

theorem to_waiting_some {s : TaskState} {mt : MediaType} {p : Persist}
    {r : TaskState × Persist} (h : TaskState.to_waiting_for_url s mt p = some r) :
    ∃ t, s = TaskState.New t ∧
      r = (TaskState.WaitingForUrl (t.to_task_download mt),
           { p with db := updateByTaskId p.db (TaskState.WaitingForUrl (t.to_task_download mt)) }) := by
  cases s with
  | New t => exact ⟨t, rfl, (Option.some.inj h).symm⟩
  | WaitingForUrl t => exact Option.noConfusion h
  | Running t => exact Option.noConfusion h
  | Success t => exact Option.noConfusion h
  | Failure t => exact Option.noConfusion h

theorem to_waiting_none (s : TaskState) (mt : MediaType) (p : Persist)
    (h : ¬ s.phase = Phase.new) : TaskState.to_waiting_for_url s mt p = none := by
  cases s with
  | New t => exact absurd rfl h
  | WaitingForUrl t => rfl
  | Running t => rfl
  | Success t => rfl
  | Failure t => rfl

theorem to_running_some {s : TaskState} {u : String} {tok : Nat} {p : Persist}
    {r : TaskState × Persist} (h : TaskState.to_running s u tok p = some r) :
    ∃ t, s = TaskState.WaitingForUrl t ∧
      r = (TaskState.Running (t.set_url u),
           { db := updateByTaskId p.db (TaskState.Running (t.set_url u))
             registry := register_task p.registry (t.set_url u).task_id tok }) := by
  cases s with
  | New t => exact Option.noConfusion h
  | WaitingForUrl t => exact ⟨t, rfl, (Option.some.inj h).symm⟩
  | Running t => exact Option.noConfusion h
  | Success t => exact Option.noConfusion h
  | Failure t => exact Option.noConfusion h

theorem to_running_none (s : TaskState) (u : String) (tok : Nat) (p : Persist)
    (h : ¬ s.phase = Phase.waitingForUrl) : TaskState.to_running s u tok p = none := by
  cases s with
  | New t => rfl
  | WaitingForUrl t => exact absurd rfl h
  | Running t => rfl
  | Success t => rfl
  | Failure t => rfl

theorem to_success_some {s : TaskState} {p : Persist} {r : TaskState × Persist}
    (h : TaskState.to_success s p = some r) :
    ∃ t st, s = TaskState.Running t ∧ t.to_task_stats = some st ∧
      r = (TaskState.Success st,
           { db := updateByTaskId p.db (TaskState.Success st)
             registry := remove_task p.registry st.task_id }) := by
  cases s with
  | New t => exact Option.noConfusion h
  | WaitingForUrl t => exact Option.noConfusion h
  | Running t =>
    cases hu : t.to_task_stats with
    | some st =>
      simp only [TaskState.to_success, hu, Option.some.injEq] at h
      exact ⟨t, st, rfl, hu, h.symm⟩
    | none =>
      simp [TaskState.to_success, hu] at h
  | Success t => exact Option.noConfusion h
  | Failure t => exact Option.noConfusion h

theorem to_success_none (s : TaskState) (p : Persist)
    (h : ¬ s.phase = Phase.running) : TaskState.to_success s p = none := by
  cases s with
  | New t => rfl
  | WaitingForUrl t => rfl
  | Running t => exact absurd rfl h
  | Success t => rfl
  | Failure t => rfl

theorem to_failure_some {s : TaskState} {p : Persist} {r : TaskState × Persist}
    (h : TaskState.to_failure s p = some r) :
    ∃ t st, s = TaskState.Running t ∧ t.to_task_stats = some st ∧
      r = (TaskState.Failure st,
           { db := updateByTaskId p.db (TaskState.Failure st)
             registry := remove_task p.registry st.task_id }) := by
  cases s with
  | New t => exact Option.noConfusion h
  | WaitingForUrl t => exact Option.noConfusion h
  | Running t =>
    cases hu : t.to_task_stats with
    | some st =>
      simp only [TaskState.to_failure, hu, Option.some.injEq] at h
      exact ⟨t, st, rfl, hu, h.symm⟩
    | none =>
      simp [TaskState.to_failure, hu] at h
  | Success t => exact Option.noConfusion h
  | Failure t => exact Option.noConfusion h

theorem to_failure_none (s : TaskState) (p : Persist)
    (h : ¬ s.phase = Phase.running) : TaskState.to_failure s p = none := by
  cases s with
  | New t => rfl
  | WaitingForUrl t => rfl
  | Running t => exact absurd rfl h
  | Success t => rfl
  | Failure t => rfl

theorem step_phase {s s2 : TaskState} (h : Step s s2) :
    (s.phase = Phase.new ∧ s2.phase = Phase.waitingForUrl) ∨
      (s.phase = Phase.waitingForUrl ∧ s2.phase = Phase.running) ∨
      (s.phase = Phase.running ∧
        (s2.phase = Phase.success ∨ s2.phase = Phase.failure)) := by
  cases h with
  | toWaiting mt p r hr =>
    obtain ⟨t, rfl, rfl⟩ := to_waiting_some hr
    exact Or.inl ⟨rfl, rfl⟩
  | toRunning u tok p r hr =>
    obtain ⟨t, rfl, rfl⟩ := to_running_some hr
    exact Or.inr (Or.inl ⟨rfl, rfl⟩)
  | toSuccess p r hr =>
    obtain ⟨t, st, rfl, hu, rfl⟩ := to_success_some hr
    exact Or.inr (Or.inr ⟨rfl, Or.inl rfl⟩)
  | toFailure p r hr =>
    obtain ⟨t, st, rfl, hu, rfl⟩ := to_failure_some hr
    exact Or.inr (Or.inr ⟨rfl, Or.inr rfl⟩)

theorem trace_terminal {s : TaskState} {l : List TaskState} (h : Trace s l)
    (hp : s.phase = Phase.success ∨ s.phase = Phase.failure) :
    l = [s] := by
  cases h with
  | single => rfl
  | step hstep htrace =>
    exfalso
    rcases step_phase hstep with ⟨h1, _⟩ | ⟨h1, _⟩ | ⟨h1, _⟩ <;>
      rcases hp with hp | hp <;> rw [hp] at h1 <;> exact Phase.noConfusion h1

theorem trace_running {s : TaskState} {l : List TaskState} (h : Trace s l)
    (hp : s.phase = Phase.running) :
    l.map TaskState.phase = [Phase.running] ∨
      l.map TaskState.phase = [Phase.running, Phase.success] ∨
      l.map TaskState.phase = [Phase.running, Phase.failure] := by
  cases h with
  | single => left; simp [hp]
  | step hstep htrace =>
    rcases step_phase hstep with ⟨h1, h2⟩ | ⟨h1, h2⟩ | ⟨h1, h2⟩
    · rw [hp] at h1; exact Phase.noConfusion h1
    · rw [hp] at h1; exact Phase.noConfusion h1
    · have h3 := trace_terminal htrace h2
      subst h3
      rcases h2 with h2 | h2
      · right; left; simp [hp, h2]
      · right; right; simp [hp, h2]

theorem trace_waiting {s : TaskState} {l : List TaskState} (h : Trace s l)
    (hp : s.phase = Phase.waitingForUrl) :
    l.map TaskState.phase = [Phase.waitingForUrl] ∨
      l.map TaskState.phase = [Phase.waitingForUrl, Phase.running] ∨
      l.map TaskState.phase = [Phase.waitingForUrl, Phase.running, Phase.success] ∨
      l.map TaskState.phase = [Phase.waitingForUrl, Phase.running, Phase.failure] := by
  cases h with
  | single => left; simp [hp]
  | step hstep htrace =>
    rcases step_phase hstep with ⟨h1, h2⟩ | ⟨h1, h2⟩ | ⟨h1, h2⟩
    · rw [hp] at h1; exact Phase.noConfusion h1
    · rcases trace_running htrace h2 with h3 | h3 | h3
      · right; left; simp [hp, h3]
      · right; right; left; simp [hp, h3]
      · right; right; right; simp [hp, h3]
    · rw [hp] at h1; exact Phase.noConfusion h1

theorem trace_new {s : TaskState} {l : List TaskState} (h : Trace s l)
    (hp : s.phase = Phase.new) :
    l.map TaskState.phase = [Phase.new] ∨
      l.map TaskState.phase = [Phase.new, Phase.waitingForUrl] ∨
      l.map TaskState.phase = [Phase.new, Phase.waitingForUrl, Phase.running] ∨
      l.map TaskState.phase =
        [Phase.new, Phase.waitingForUrl, Phase.running, Phase.success] ∨
      l.map TaskState.phase =
        [Phase.new, Phase.waitingForUrl, Phase.running, Phase.failure] := by
  cases h with
  | single => left; simp [hp]
  | step hstep htrace =>
    rcases step_phase hstep with ⟨h1, h2⟩ | ⟨h1, h2⟩ | ⟨h1, h2⟩
    · rcases trace_waiting htrace h2 with h3 | h3 | h3 | h3
      · right; left; simp [hp, h3]
      · right; right; left; simp [hp, h3]
      · right; right; right; left; simp [hp, h3]
      · right; right; right; right; simp [hp, h3]
    · rw [hp] at h1; exact Phase.noConfusion h1
    · rw [hp] at h1; exact Phase.noConfusion h1

/-- C4: each transition function produces its target state only when
invoked on its unique legal source state — in which case the persisted
record is replaced by the new state (`updateByTaskId`) and, for
`to_running` / `to_success` / `to_failure`, the cancellation registry is
updated — and on any other source state it returns `none` (the process
terminates via `die` before any write, leaving the persisted record
unchanged).  Consequently every sequence of states of one task starting at
`New` is a prefix of New, WaitingForUrl, Running followed by Success or
Failure: never out of order, never skipping, never branching. -/
theorem C4_state_machine :
    (∀ (s : TaskState) (mt : MediaType) (p : Persist) (r : TaskState × Persist),
        TaskState.to_waiting_for_url s mt p = some r →
          ∃ t, s = TaskState.New t ∧
            r = (TaskState.WaitingForUrl (t.to_task_download mt), { p with db := updateByTaskId p.db (TaskState.WaitingForUrl (t.to_task_download mt)) })) ∧
      (∀ (s : TaskState) (mt : MediaType) (p : Persist),
          ¬ s.phase = Phase.new → TaskState.to_waiting_for_url s mt p = none) ∧
      (∀ (s : TaskState) (u : String) (tok : Nat) (p : Persist) (r : TaskState × Persist),
          TaskState.to_running s u tok p = some r →
            ∃ t, s = TaskState.WaitingForUrl t ∧
              r = (TaskState.Running (t.set_url u), { db := updateByTaskId p.db (TaskState.Running (t.set_url u)), registry := register_task p.registry (t.set_url u).task_id tok })) ∧
      (∀ (s : TaskState) (u : String) (tok : Nat) (p : Persist),
          ¬ s.phase = Phase.waitingForUrl → TaskState.to_running s u tok p = none) ∧
      (∀ (s : TaskState) (p : Persist) (r : TaskState × Persist),
          TaskState.to_success s p = some r →
            ∃ t st, s = TaskState.Running t ∧ t.to_task_stats = some st ∧
              r = (TaskState.Success st, { db := updateByTaskId p.db (TaskState.Success st), registry := remove_task p.registry st.task_id })) ∧
      (∀ (s : TaskState) (p : Persist),
          ¬ s.phase = Phase.running → TaskState.to_success s p = none) ∧
      (∀ (s : TaskState) (p : Persist) (r : TaskState × Persist),
          TaskState.to_failure s p = some r →
            ∃ t st, s = TaskState.Running t ∧ t.to_task_stats = some st ∧
              r = (TaskState.Failure st, { db := updateByTaskId p.db (TaskState.Failure st), registry := remove_task p.registry st.task_id })) ∧
      (∀ (s : TaskState) (p : Persist),
          ¬ s.phase = Phase.running → TaskState.to_failure s p = none) ∧
      (∀ (t : TaskSimple) (l : List TaskState), Trace (TaskState.New t) l →
          l.map TaskState.phase = [Phase.new] ∨
            l.map TaskState.phase = [Phase.new, Phase.waitingForUrl] ∨
            l.map TaskState.phase = [Phase.new, Phase.waitingForUrl, Phase.running] ∨
            l.map TaskState.phase =
              [Phase.new, Phase.waitingForUrl, Phase.running, Phase.success] ∨
            l.map TaskState.phase =
              [Phase.new, Phase.waitingForUrl, Phase.running, Phase.failure]) :=
  ⟨fun _ _ _ _ h => to_waiting_some h,
   to_waiting_none,
   fun _ _ _ _ _ h => to_running_some h,
   to_running_none,
   fun _ _ _ h => to_success_some h,
   to_success_none,
   fun _ _ _ h => to_failure_some h,
   to_failure_none,
   fun _ _ htr => trace_new htr rfl⟩

theorem C4_witness :
    ([TaskState.New ⟨⟨0⟩, ⟨0⟩⟩,
      TaskState.WaitingForUrl ⟨⟨0⟩, ⟨0⟩, MediaType.Mp3, none⟩,
      TaskState.Running ⟨⟨0⟩, ⟨0⟩, MediaType.Mp3, some ("u")⟩,
      TaskState.Success ⟨⟨0⟩, ⟨0⟩, MediaType.Mp3, "u"⟩].map TaskState.phase
        = [Phase.new]) ∨
      ([TaskState.New ⟨⟨0⟩, ⟨0⟩⟩,
        TaskState.WaitingForUrl ⟨⟨0⟩, ⟨0⟩, MediaType.Mp3, none⟩,
        TaskState.Running ⟨⟨0⟩, ⟨0⟩, MediaType.Mp3, some ("u")⟩,
        TaskState.Success ⟨⟨0⟩, ⟨0⟩, MediaType.Mp3, "u"⟩].map TaskState.phase
          = [Phase.new, Phase.waitingForUrl]) ∨
      ([TaskState.New ⟨⟨0⟩, ⟨0⟩⟩,
        TaskState.WaitingForUrl ⟨⟨0⟩, ⟨0⟩, MediaType.Mp3, none⟩,
        TaskState.Running ⟨⟨0⟩, ⟨0⟩, MediaType.Mp3, some ("u")⟩,
        TaskState.Success ⟨⟨0⟩, ⟨0⟩, MediaType.Mp3, "u"⟩].map TaskState.phase
          = [Phase.new, Phase.waitingForUrl, Phase.running]) ∨
      ([TaskState.New ⟨⟨0⟩, ⟨0⟩⟩,
        TaskState.WaitingForUrl ⟨⟨0⟩, ⟨0⟩, MediaType.Mp3, none⟩,
        TaskState.Running ⟨⟨0⟩, ⟨0⟩, MediaType.Mp3, some ("u")⟩,
        TaskState.Success ⟨⟨0⟩, ⟨0⟩, MediaType.Mp3, "u"⟩].map TaskState.phase
          = [Phase.new, Phase.waitingForUrl, Phase.running, Phase.success]) ∨
      ([TaskState.New ⟨⟨0⟩, ⟨0⟩⟩,
        TaskState.WaitingForUrl ⟨⟨0⟩, ⟨0⟩, MediaType.Mp3, none⟩,
        TaskState.Running ⟨⟨0⟩, ⟨0⟩, MediaType.Mp3, some ("u")⟩,
        TaskState.Success ⟨⟨0⟩, ⟨0⟩, MediaType.Mp3, "u"⟩].map TaskState.phase
          = [Phase.new, Phase.waitingForUrl, Phase.running, Phase.failure]) := by
  have htr : Trace (TaskState.New ⟨⟨0⟩, ⟨0⟩⟩)
      [TaskState.New ⟨⟨0⟩, ⟨0⟩⟩,
       TaskState.WaitingForUrl ⟨⟨0⟩, ⟨0⟩, MediaType.Mp3, none⟩,
       TaskState.Running ⟨⟨0⟩, ⟨0⟩, MediaType.Mp3, some ("u")⟩,
       TaskState.Success ⟨⟨0⟩, ⟨0⟩, MediaType.Mp3, "u"⟩] := by
    refine Trace.step (Step.toWaiting MediaType.Mp3 ⟨[], []⟩
      (TaskState.WaitingForUrl ⟨⟨0⟩, ⟨0⟩, MediaType.Mp3, none⟩, ⟨[], []⟩) rfl) ?_
    refine Trace.step (Step.toRunning ("u") 7 ⟨[], []⟩
      (TaskState.Running ⟨⟨0⟩, ⟨0⟩, MediaType.Mp3, some ("u")⟩, ⟨[], [(⟨0⟩, 7)]⟩) rfl) ?_
    refine Trace.step (Step.toSuccess ⟨[], []⟩
      (TaskState.Success ⟨⟨0⟩, ⟨0⟩, MediaType.Mp3, "u"⟩, ⟨[], []⟩) rfl) ?_
    exact Trace.single _
  exact C4_state_machine.2.2.2.2.2.2.2.2 ⟨⟨0⟩, ⟨0⟩⟩ _ htr

/-! ## Claim C5 -/

theorem nodup_map_inj {α β : Type} (f : α → β) :
    ∀ (l : List α), (l.map f).Nodup →
      ∀ a b, a ∈ l → b ∈ l → f a = f b → a = b := by
  intro l
  induction l with
  | nil => intro _ a b ha; exact absurd ha (List.not_mem_nil a)
  | cons c rest ih =>
    intro hn a b ha hb hf
    rw [List.map_cons, List.nodup_cons] at hn
    rcases List.mem_cons.mp ha with rfl | ha2
    · rcases List.mem_cons.mp hb with rfl | hb2
      · rfl
      · exact absurd (hf ▸ List.mem_map_of_mem f hb2) hn.1
    · rcases List.mem_cons.mp hb with rfl | hb2
      · exact absurd (hf ▸ List.mem_map_of_mem f ha2) hn.1
      · exact ih hn.2 a b ha2 hb2 hf

theorem failureOf_task_id (s : TaskState) : (failureOf s).task_id = s.task_id := by
  cases s with
  | Running t =>
    cases hu : t.url with
    | some u => simp [failureOf, hu, TaskState.task_id]
    | none => simp [failureOf, hu]
  | New t => rfl
  | WaitingForUrl t => rfl
  | Success t => rfl
  | Failure t => rfl

theorem failureOf_not_running {s : TaskState} (h : s.isRunning = false) :
    failureOf s = s := by
  cases s with
  | Running t => simp [TaskState.isRunning] at h
  | New t => rfl
  | WaitingForUrl t => rfl
  | Success t => rfl
  | Failure t => rfl

theorem to_failure_running {t : TaskDownload} {u : String} (hu : t.url = some u)
    (p : Persist) :
    TaskState.to_failure (TaskState.Running t) p =
      some (failureOf (TaskState.Running t),
        ⟨updateByTaskId p.db (failureOf (TaskState.Running t)),
         remove_task p.registry t.task_id⟩) := by
  simp [TaskState.to_failure, TaskDownload.to_task_stats, hu, failureOf]

theorem boot_fold_some :
    ∀ (tasks : List TaskState) (q : Persist),
      (∀ t ∈ tasks, t.isRunning = true ∧ t.urlReady = true) →
      tasks.foldl
          (fun acc task =>
            acc.bind (fun w => (TaskState.to_failure task w).map (fun r => r.2)))
          (some q) =
        some ⟨tasks.foldl (fun db t => updateByTaskId db (failureOf t)) q.db,
              tasks.foldl (fun reg t => remove_task reg t.task_id) q.registry⟩ := by
  intro tasks
  induction tasks with
  | nil => intro q _; rfl
  | cons t rest ih =>
    intro q h
    have ht := h t (List.mem_cons_self t rest)
    cases t with
    | Running td =>
      cases hu : td.url with
      | some u =>
        rw [List.foldl_cons]
        have hstep :
            ((some q).bind
              (fun w => (TaskState.to_failure (TaskState.Running td) w).map (fun r => r.2))) =
            some (⟨updateByTaskId q.db (failureOf (TaskState.Running td)),
                   remove_task q.registry td.task_id⟩ : Persist) := by
          show (TaskState.to_failure (TaskState.Running td) q).map (fun r => r.2) = _
          rw [to_failure_running hu q]
          rfl
        rw [hstep, ih _ (fun t2 ht2 => h t2 (List.mem_cons_of_mem _ ht2))]
        rfl
      | none =>
        exfalso
        have h2 := ht.2
        rw [TaskState.urlReady, hu] at h2
        exact Bool.noConfusion h2
    | New t2 => exact absurd ht.1 (by simp [TaskState.isRunning])
    | WaitingForUrl t2 => exact absurd ht.1 (by simp [TaskState.isRunning])
    | Success t2 => exact absurd ht.1 (by simp [TaskState.isRunning])
    | Failure t2 => exact absurd ht.1 (by simp [TaskState.isRunning])

theorem fold_update_length :
    ∀ (tasks db : List TaskState),
      (tasks.foldl (fun db t => updateByTaskId db (failureOf t)) db).length = db.length := by
  intro tasks
  induction tasks with
  | nil => intro db; rfl
  | cons t rest ih =>
    intro db
    rw [List.foldl_cons, ih]
    simp [updateByTaskId]

theorem fold_update_getElem :
    ∀ (tasks db : List TaskState) (i : Nat),
      (tasks.foldl (fun db t => updateByTaskId db (failureOf t)) db)[i]? =
        (db[i]?).map
          (fun x => tasks.foldl
            (fun x t => if x.task_id == (failureOf t).task_id then failureOf t else x) x) := by
  intro tasks
  induction tasks with
  | nil =>
    intro db i
    simp
  | cons t rest ih =>
    intro db i
    rw [List.foldl_cons, ih, updateByTaskId, List.getElem?_map, Option.map_map]
    rfl

theorem elem_fold_not_mem :
    ∀ (tasks : List TaskState) (x : TaskState),
      (∀ t ∈ tasks, ¬ x.task_id = t.task_id) →
      tasks.foldl
          (fun x t => if x.task_id == (failureOf t).task_id then failureOf t else x) x = x := by
  intro tasks
  induction tasks with
  | nil => intro x _; rfl
  | cons t rest ih =>
    intro x h
    rw [List.foldl_cons, failureOf_task_id,
      if_neg (by simpa using h t (List.mem_cons_self t rest))]
    exact ih x (fun t2 ht2 => h t2 (List.mem_cons_of_mem _ ht2))

theorem elem_fold_running :
    ∀ (tasks : List TaskState) (x : TaskState),
      x ∈ tasks →
      (tasks.map TaskState.task_id).Nodup →
      tasks.foldl
          (fun x t => if x.task_id == (failureOf t).task_id then failureOf t else x) x =
        failureOf x := by
  intro tasks
  induction tasks with
  | nil => intro x hx; exact absurd hx (List.not_mem_nil x)
  | cons t rest ih =>
    intro x hx hn
    rw [List.map_cons, List.nodup_cons] at hn
    rcases List.mem_cons.mp hx with rfl | hx2
    · rw [List.foldl_cons, failureOf_task_id, if_pos (by simp)]
      refine elem_fold_not_mem rest (failureOf x) ?_
      intro t2 ht2 heq
      rw [failureOf_task_id] at heq
      exact hn.1 (heq ▸ List.mem_map_of_mem TaskState.task_id ht2)
    · have hne : ¬ x.task_id = t.task_id := by
        intro heq
        exact hn.1 (heq ▸ List.mem_map_of_mem TaskState.task_id hx2)
      rw [List.foldl_cons, failureOf_task_id, if_neg (by simpa using hne)]
      exact ih x hx2 hn.2

/-- C5: at process boot, before the event dispatcher starts, every task
found persisted in the `Running` state has its record transitioned to
`Failure` and no other record is changed; the persistent state at the
moment the dispatcher starts accepting chat events
(`engine_run_boot p = some q`) contains no `Running` record at all.
Hypotheses: persisted task ids are unique (one record per task) and every
persisted `Running` record carries a URL (both invariants of the writer
`to_running`). -/
theorem C5_boot_recovery (p : Persist)
    (hn : (p.db.map TaskState.task_id).Nodup)
    (hu : ∀ t ∈ p.db, t.isRunning = true → t.urlReady = true) :
    (∃ q, engine_run_boot p = some q) ∧
      ∀ (q : Persist), engine_run_boot p = some q →
        q.db.length = p.db.length ∧
        (∀ (i : Nat) (e : TaskState), p.db[i]? = some e → q.db[i]? = some (failureOf e)) ∧
        (∀ (i : Nat) (e : TaskState), p.db[i]? = some e → e.isRunning = true →
            (failureOf e).phase = Phase.failure ∧ (failureOf e).task_id = e.task_id) ∧
        (∀ e2 ∈ q.db, e2.isRunning = false) := by
  have hfold := boot_fold_some (p.db.filter TaskState.isRunning) p
    (fun t ht => ⟨(List.mem_filter.mp ht).2,
      hu t (List.mem_filter.mp ht).1 (List.mem_filter.mp ht).2⟩)
  have hrun : engine_run_boot p =
      some ⟨(p.db.filter TaskState.isRunning).foldl
              (fun db t => updateByTaskId db (failureOf t)) p.db,
            (p.db.filter TaskState.isRunning).foldl
              (fun reg t => remove_task reg t.task_id) p.registry⟩ := by
    show (p.db.filter (fun s => s.isRunning)).foldl _ (some p) = _
    exact hfold
  have hnodupf : ((p.db.filter TaskState.isRunning).map TaskState.task_id).Nodup :=
    List.Nodup.sublist (List.Sublist.map TaskState.task_id (List.filter_sublist p.db)) hn
  have hpoint : ∀ (i : Nat) (e : TaskState), p.db[i]? = some e →
      ((p.db.filter TaskState.isRunning).foldl
          (fun db t => updateByTaskId db (failureOf t)) p.db)[i]? = some (failureOf e) := by
    intro i e he
    rw [fold_update_getElem, he, Option.map_some']
    have hmem : e ∈ p.db := by
      obtain ⟨hlt, hgt⟩ := List.getElem?_eq_some.mp he
      exact hgt ▸ List.getElem_mem hlt
    by_cases hr : e.isRunning = true
    · have hef : e ∈ p.db.filter TaskState.isRunning := List.mem_filter.mpr ⟨hmem, hr⟩
      rw [elem_fold_running (p.db.filter TaskState.isRunning) e hef hnodupf]
    · have hnr : e.isRunning = false := Bool.eq_false_iff.mpr hr
      rw [elem_fold_not_mem (p.db.filter TaskState.isRunning) e ?_]
      · rw [failureOf_not_running hnr]
      · intro t2 ht2 heq
        have ht2m := List.mem_filter.mp ht2
        have : e = t2 := nodup_map_inj TaskState.task_id p.db hn e t2 hmem ht2m.1 heq
        rw [this] at hnr
        rw [ht2m.2] at hnr
        exact Bool.noConfusion hnr
  refine ⟨⟨_, hrun⟩, ?_⟩
  intro q hq
  rw [hrun] at hq
  cases Option.some.inj hq
  refine ⟨fold_update_length _ _, hpoint, ?_, ?_⟩
  · intro i e he hr
    cases e with
    | Running td =>
      cases hut : td.url with
      | some u =>
        constructor
        · simp [failureOf, hut, TaskState.phase]
        · exact failureOf_task_id _
      | none =>
        exfalso
        have hmem2 : TaskState.Running td ∈ p.db := by
          obtain ⟨hlt, hgt⟩ := List.getElem?_eq_some.mp he
          exact hgt ▸ List.getElem_mem hlt
        have h2 := hu _ hmem2 (by rfl)
        rw [TaskState.urlReady, hut] at h2
        exact Bool.noConfusion h2
    | New t2 => exact absurd hr (by simp [TaskState.isRunning])
    | WaitingForUrl t2 => exact absurd hr (by simp [TaskState.isRunning])
    | Success t2 => exact absurd hr (by simp [TaskState.isRunning])
    | Failure t2 => exact absurd hr (by simp [TaskState.isRunning])
  · intro e2 he2
    obtain ⟨i, hlt, hget⟩ := List.getElem_of_mem he2
    have hlt2 : i < p.db.length := by
      have hlen := fold_update_length (p.db.filter TaskState.isRunning) p.db
      have hlt3 : i < ((p.db.filter TaskState.isRunning).foldl
          (fun db t => updateByTaskId db (failureOf t)) p.db).length := hlt
      omega
    have hpe : p.db[i]? = some (p.db.get ⟨i, hlt2⟩) := List.getElem?_eq_some.mpr ⟨hlt2, rfl⟩
    have := hpoint i _ hpe
    rw [List.getElem?_eq_some] at this
    obtain ⟨hlt3, hq3⟩ := this
    have he2eq : e2 = failureOf (p.db.get ⟨i, hlt2⟩) := by rw [← hget, hq3]
    by_cases hr : (p.db.get ⟨i, hlt2⟩).isRunning = true
    · cases hx : (p.db.get ⟨i, hlt2⟩) with
      | Running td =>
        cases hut : td.url with
        | some u => rw [he2eq, hx]; simp [failureOf, hut, TaskState.isRunning]
        | none =>
          exfalso
          have hmem2 : TaskState.Running td ∈ p.db := hx ▸ List.getElem_mem hlt2
          have h2 := hu _ hmem2 (by rfl)
          rw [TaskState.urlReady, hut] at h2
          exact Bool.noConfusion h2
      | New t2 => rw [hx] at hr; exact absurd hr (by simp [TaskState.isRunning])
      | WaitingForUrl t2 => rw [hx] at hr; exact absurd hr (by simp [TaskState.isRunning])
      | Success t2 => rw [hx] at hr; exact absurd hr (by simp [TaskState.isRunning])
      | Failure t2 => rw [hx] at hr; exact absurd hr (by simp [TaskState.isRunning])
    · have hnr : (p.db.get ⟨i, hlt2⟩).isRunning = false := Bool.eq_false_iff.mpr hr
      rw [he2eq, failureOf_not_running hnr]
      exact hnr

theorem C5_witness :
    ([TaskState.Failure ⟨⟨3⟩, ⟨1⟩, MediaType.Mp3, "u"⟩] : List TaskState)[0]? =
      some (failureOf (TaskState.Running ⟨⟨3⟩, ⟨1⟩, MediaType.Mp3, some ("u")⟩)) := by
  have h := (C5_boot_recovery
      ⟨[TaskState.Running ⟨⟨3⟩, ⟨1⟩, MediaType.Mp3, some ("u")⟩], []⟩
      (by simp) (by intro t ht _; rw [List.mem_singleton] at ht; subst ht; rfl)).2
      ⟨[TaskState.Failure ⟨⟨3⟩, ⟨1⟩, MediaType.Mp3, "u"⟩], []⟩ (by rfl)
  exact h.2.1 0 (TaskState.Running ⟨⟨3⟩, ⟨1⟩, MediaType.Mp3, some ("u")⟩) rfl

/-! ## Claims C3 and C6: post-processing lemmas -/

theorem lookup_renameEntry (d : List FileEntry) (old nw y : String) (sz : Nat)
    (h1 : ¬ y = old) (h2 : ¬ y = nw) :
    lookupName (renameEntry d old nw sz) y = lookupName d y := by
  unfold lookupName renameEntry
  rw [List.find?_append]
  have hlast : List.find? (fun f => f.name == y) [(⟨nw, sz⟩ : FileEntry)] = none := by
    rw [List.find?_eq_none]
    intro x hx
    rw [List.mem_singleton] at hx
    subst hx
    simp only [beq_iff_eq]
    exact fun h => h2 h.symm
  rw [hlast, Option.or_none]
  exact find?_filter_ne d _ _ (by
    intro a ha
    have hay : a.name = y := by simpa using ha
    simp [hay, h1, h2])

theorem lookup_self (d : List FileEntry) (hnd : (d.map FileEntry.name).Nodup) :
    ∀ f ∈ d, lookupName d f.name = some f := by
  induction d with
  | nil => intro f hf; exact absurd hf (List.not_mem_nil f)
  | cons g rest ih =>
    intro f hf
    rw [List.map_cons, List.nodup_cons] at hnd
    rcases List.mem_cons.mp hf with rfl | hf2
    · simp [lookupName, List.find?_cons]
    · have hne : ¬ (g.name == f.name) = true := by
        simp only [beq_iff_eq]
        intro heq
        exact hnd.1 (heq ▸ List.mem_map_of_mem FileEntry.name hf2)
      unfold lookupName
      rw [List.find?_cons]
      rw [Bool.eq_false_iff.mpr hne]
      exact ih hnd.2 f hf2

theorem isPrefixOf_head {a b : Char} {as bs : List Char}
    (h : List.isPrefixOf (a :: as) (b :: bs) = true) : a = b := by
  simp only [List.isPrefixOf, Bool.and_eq_true, beq_iff_eq] at h
  exact h.1

theorem newname_data (dirPath ts : String) :
    (newnameFor dirPath ts).toList =
      (dirPath ++ ("/")).toList ++
        (("audio_").toList ++ ts.toList ++ ((".ogg")).toList) := by
  show dirPath.data ++ ('/' :: ("audio_" : String).data) ++ ts.data ++ ((".ogg" : String)).data =
    (dirPath.data ++ ['/']) ++
      (("audio_" : String).data ++ ts.data ++ ((".ogg" : String)).data)
  simp [List.append_assoc]

theorem glob_ne_newname (mt : MediaType) (dirPath ts name : String)
    (h : globMatch dirPath mt.as_str name = true) : ¬ name = newnameFor dirPath ts := by
  intro heq
  rw [heq] at h
  unfold globMatch at h
  simp only [Bool.and_eq_true] at h
  have h3 := h.2
  rw [newname_data, List.drop_left] at h3
  unfold listEnds at h3
  rw [List.reverse_append, List.reverse_append] at h3
  rw [show ((".ogg" : String)).toList.reverse = 'g' :: ['g', 'o', '.'] from rfl] at h3
  rw [List.cons_append] at h3
  cases mt with
  | Mp3 =>
    rw [show (MediaType.Mp3.as_str.toList).reverse = '3' :: ['p', 'm'] from rfl] at h3
    exact absurd (isPrefixOf_head h3) (by decide)
  | Mp4 =>
    rw [show (MediaType.Mp4.as_str.toList).reverse = '4' :: ['p', 'm'] from rfl] at h3
    exact absurd (isPrefixOf_head h3) (by decide)
  | Voice =>
    rw [show (MediaType.Voice.as_str.toList).reverse = 's' :: ['u', 'p', 'o'] from rfl] at h3
    exact absurd (isPrefixOf_head h3) (by decide)

theorem collectLoop_cons_skip {dirPath ts full : String} {rest : List String}
    {d : List FileEntry} {paths : List String} {rens : List (String × String)}
    {f : FileEntry} (h : lookupName d full = some f) (hsz : ¬ f.size < threshold) :
    collectLoop dirPath ts (full :: rest) d paths rens =
      collectLoop dirPath ts rest d paths rens := by
  simp [collectLoop, h, hsz]

theorem collectLoop_cons_plain {dirPath ts full : String} {rest : List String}
    {d : List FileEntry} {paths : List String} {rens : List (String × String)}
    {f : FileEntry} (h : lookupName d full = some f) (hsz : f.size < threshold)
    (hm : opusMatch full = none) :
    collectLoop dirPath ts (full :: rest) d paths rens =
      collectLoop dirPath ts rest d (paths ++ [full]) rens := by
  simp [collectLoop, h, hsz, hm]

theorem collectLoop_cons_opus {dirPath ts full old : String} {rest : List String}
    {d : List FileEntry} {paths : List String} {rens : List (String × String)}
    {f g : FileEntry} (h : lookupName d full = some f) (hsz : f.size < threshold)
    (hm : opusMatch full = some old) (hg : lookupName d old = some g) :
    collectLoop dirPath ts (full :: rest) d paths rens =
      collectLoop dirPath ts rest (renameEntry d old (newnameFor dirPath ts) g.size)
        (paths ++ [newnameFor dirPath ts]) (rens ++ [(old, newnameFor dirPath ts)]) := by
  simp [collectLoop, h, hsz, hm, hg]

theorem collectLoop_cons_rename_fail {dirPath ts full old : String} {rest : List String}
    {d : List FileEntry} {paths : List String} {rens : List (String × String)}
    {f : FileEntry} (h : lookupName d full = some f) (hsz : f.size < threshold)
    (hm : opusMatch full = some old) (hg : lookupName d old = none) :
    collectLoop dirPath ts (full :: rest) d paths rens =
      Except.error (("rename failed: ") ++ old) := by
  simp [collectLoop, h, hsz, hm, hg]

theorem collect_spec (dirPath ts : String) (d : List FileEntry) :
    ∀ (todoE : List FileEntry) (dcur : List FileEntry) (paths : List String)
      (rens : List (String × String)),
      (∀ f ∈ todoE, lookupName dcur f.name = lookupName d f.name) →
      (∀ f ∈ todoE, lookupName d f.name = some f) →
      ((todoE.map FileEntry.name).Nodup) →
      (∀ f ∈ todoE, f.size < threshold → renameSafe f.name = true) →
      (∀ f ∈ todoE, ¬ f.name = newnameFor dirPath ts) →
      ∃ added rens2 dfin,
        collectLoop dirPath ts (todoE.map (fun f => f.name)) dcur paths rens =
          Except.ok (paths ++ added, rens ++ rens2, dfin) ∧
        added.length = (todoE.filter (fun f => decide (f.size < threshold))).length ∧
        (∀ x ∈ added, x = newnameFor dirPath ts ∨
          ∃ f, f ∈ todoE ∧ f.size < threshold ∧ x = f.name) := by
  intro todoE
  induction todoE with
  | nil =>
    intro dcur paths rens _ _ _ _ _
    exact ⟨[], [], dcur, by simp [collectLoop], rfl,
      fun x hx => absurd hx (List.not_mem_nil x)⟩
  | cons f rest ih =>
    intro dcur paths rens hl hmem hnd hsafe hne
    have hlookup : lookupName dcur f.name = some f := by
      rw [hl f (List.mem_cons_self f rest)]
      exact hmem f (List.mem_cons_self f rest)
    rw [List.map_cons, List.nodup_cons] at hnd
    have hrestl : ∀ g ∈ rest, ¬ g.name = f.name := by
      intro g hg heq
      exact hnd.1 (heq ▸ List.mem_map_of_mem FileEntry.name hg)
    by_cases hsz : f.size < threshold
    · cases hm : opusMatch f.name with
      | none =>
        rw [List.map_cons, collectLoop_cons_plain hlookup hsz hm]
        obtain ⟨added, rens2, dfin, hc, hlen, hadd⟩ :=
          ih dcur (paths ++ [f.name]) rens
            (fun g hg => hl g (List.mem_cons_of_mem f hg))
            (fun g hg => hmem g (List.mem_cons_of_mem f hg))
            hnd.2
            (fun g hg => hsafe g (List.mem_cons_of_mem f hg))
            (fun g hg => hne g (List.mem_cons_of_mem f hg))
        refine ⟨f.name :: added, rens2, dfin, ?_, ?_, ?_⟩
        · rw [hc]; simp
        · simp [List.filter_cons, hsz, hlen]
        · intro x hx
          rcases List.mem_cons.mp hx with rfl | hx2
          · exact Or.inr ⟨f, List.mem_cons_self f rest, hsz, rfl⟩
          · rcases hadd x hx2 with h | ⟨g, hg, hgs, hgx⟩
            · exact Or.inl h
            · exact Or.inr ⟨g, List.mem_cons_of_mem f hg, hgs, hgx⟩
      | some old =>
        have hold : old = f.name := by
          have hs := hsafe f (List.mem_cons_self f rest) hsz
          unfold renameSafe at hs
          rw [hm] at hs
          exact beq_iff_eq.mp hs
        subst hold
        rw [List.map_cons, collectLoop_cons_opus hlookup hsz hm hlookup]
        obtain ⟨added, rens2, dfin, hc, hlen, hadd⟩ :=
          ih (renameEntry dcur f.name (newnameFor dirPath ts) f.size)
            (paths ++ [newnameFor dirPath ts])
            (rens ++ [(f.name, newnameFor dirPath ts)])
            (fun g hg => by
              rw [lookup_renameEntry dcur f.name (newnameFor dirPath ts) g.name f.size
                (hrestl g hg) (hne g (List.mem_cons_of_mem f hg))]
              exact hl g (List.mem_cons_of_mem f hg))
            (fun g hg => hmem g (List.mem_cons_of_mem f hg))
            hnd.2
            (fun g hg => hsafe g (List.mem_cons_of_mem f hg))
            (fun g hg => hne g (List.mem_cons_of_mem f hg))
        refine ⟨newnameFor dirPath ts :: added,
          (f.name, newnameFor dirPath ts) :: rens2, dfin, ?_, ?_, ?_⟩
        · rw [hc]; simp
        · simp [List.filter_cons, hsz, hlen]
        · intro x hx
          rcases List.mem_cons.mp hx with rfl | hx2
          · exact Or.inl rfl
          · rcases hadd x hx2 with h | ⟨g, hg, hgs, hgx⟩
            · exact Or.inl h
            · exact Or.inr ⟨g, List.mem_cons_of_mem f hg, hgs, hgx⟩
    · rw [List.map_cons, collectLoop_cons_skip hlookup hsz]
      obtain ⟨added, rens2, dfin, hc, hlen, hadd⟩ :=
        ih dcur paths rens
          (fun g hg => hl g (List.mem_cons_of_mem f hg))
          (fun g hg => hmem g (List.mem_cons_of_mem f hg))
          hnd.2
          (fun g hg => hsafe g (List.mem_cons_of_mem f hg))
          (fun g hg => hne g (List.mem_cons_of_mem f hg))
      refine ⟨added, rens2, dfin, hc, ?_, ?_⟩
      · simp [List.filter_cons, hsz, hlen]
      · intro x hx
        rcases hadd x hx with h | ⟨g, hg, hgs, hgx⟩
        · exact Or.inl h
        · exact Or.inr ⟨g, List.mem_cons_of_mem f hg, hgs, hgx⟩

/-- C3, counterexample: take the working directory holding the single small
file `D/x.opus.mp3` for media type `Mp3` (N = 1 qualifying file, M = 0).
The claim says post-processing must report success, but the `.opus` regex
matches the path, the code tries `std::fs::rename("D/x.opus", ...)`, the
source path does not exist, and the `?` aborts the whole call with an
error — so "reports success if and only if N>0" is false as stated. -/
theorem C3_counterexample :
    ((([⟨("D/x.opus.mp3"), 10⟩] : List FileEntry).filter
          (fun f => globMatch ("D") (MediaType.Mp3.as_str) f.name)).filter
        (fun f => decide (f.size < threshold))).length = 1 ∧
      download_post MediaType.Mp3 ("D") ("T") [⟨("D/x.opus.mp3"), 10⟩]
          (Except.ok ("yt")) =
        Except.error (("rename failed: ") ++ ("D/x.opus")) := by
  constructor
  · rfl
  · rfl

/-- C3, amended: provided every qualifying (glob-matched, under-threshold)
file name is rename-safe — i.e. when it matches the `.opus` regex the match
is the whole name, so the rename source exists — and directory listings
have distinct names, the post-processing reports success if and only if
N > 0, the reported list has exactly the N qualifying (possibly renamed)
files, and no oversized file is ever included, regardless of the child's
exit status `ytd`.  (Without rename-safety the call can fail even with
N > 0, as the counterexample shows.) -/
theorem C3_postprocess_amended (mt : MediaType) (dirPath ts : String)
    (d : List FileEntry) (ytd : Except String String)
    (hnd : (d.map FileEntry.name).Nodup)
    (hsafe : ∀ f ∈ d, globMatch dirPath mt.as_str f.name = true →
        f.size < threshold → renameSafe f.name = true) :
    ((download_post mt dirPath ts d ytd).isOk = true ↔
        0 < ((d.filter (fun f => globMatch dirPath mt.as_str f.name)).filter
              (fun f => decide (f.size < threshold))).length) ∧
      (∀ out, download_post mt dirPath ts d ytd = Except.ok out →
          out.1.length =
            ((d.filter (fun f => globMatch dirPath mt.as_str f.name)).filter
              (fun f => decide (f.size < threshold))).length ∧
          ∀ f ∈ d, globMatch dirPath mt.as_str f.name = true → threshold ≤ f.size →
            ¬ f.name ∈ out.1) := by
  have hglobmem : ∀ f ∈ d.filter (fun f => globMatch dirPath mt.as_str f.name),
      f ∈ d ∧ globMatch dirPath mt.as_str f.name = true :=
    fun f hf => ⟨(List.mem_filter.mp hf).1, (List.mem_filter.mp hf).2⟩
  have hsub : ((d.filter (fun f => globMatch dirPath mt.as_str f.name)).map
      FileEntry.name).Nodup :=
    List.Nodup.sublist (List.Sublist.map FileEntry.name (List.filter_sublist d)) hnd
  obtain ⟨added, rens2, dfin, hc, hlen, hadd⟩ :=
    collect_spec dirPath ts d (d.filter (fun f => globMatch dirPath mt.as_str f.name))
      d [] []
      (fun _ _ => rfl)
      (fun g hg => lookup_self d hnd g (hglobmem g hg).1)
      hsub
      (fun g hg hgsz => hsafe g (hglobmem g hg).1 (hglobmem g hg).2 hgsz)
      (fun g hg => glob_ne_newname mt dirPath ts g.name (hglobmem g hg).2)
  have hpost : download_post mt dirPath ts d ytd =
      (if added.length = 0 then
          (match ytd with
           | Except.ok tb => Except.error tb
           | Except.error tb => Except.error tb)
        else Except.ok (added, rens2)) := by
    simp only [download_post, hc, List.nil_append]
  constructor
  · by_cases h0 : added.length = 0
    · rw [hpost, if_pos h0, ← hlen, h0]
      cases ytd <;> simp [Except.isOk, Except.toBool]
    · rw [hpost, if_neg h0, ← hlen]
      simp only [Except.isOk, Except.toBool, true_iff]
      omega
  · intro out hout
    rw [hpost] at hout
    by_cases h0 : added.length = 0
    · rw [if_pos h0] at hout
      cases ytd <;> exact Except.noConfusion hout
    · rw [if_neg h0] at hout
      cases Except.ok.inj hout
      refine ⟨hlen, ?_⟩
      intro f hf hg hge hmem
      rcases hadd f.name hmem with h | ⟨g, hgt, hgsz, hgx⟩
      · exact glob_ne_newname mt dirPath ts f.name hg h
      · have hfg : f = g :=
          nodup_map_inj FileEntry.name d hnd f g hf (hglobmem g hgt).1 hgx
        rw [hfg] at hge
        omega

theorem C3_witness :
    (download_post MediaType.Voice ("D") ("T") [⟨("D/b.opus"), 5⟩]
        (Except.ok (""))).isOk = true := by
  have h := (C3_postprocess_amended MediaType.Voice ("D") ("T")
      [⟨("D/b.opus"), 5⟩] (Except.ok ("")) (by decide) (by decide)).1
  exact h.mpr (by decide)

theorem collect_no_opus (dirPath ts : String)
    (hts : opusMatch (newnameFor dirPath ts) = none) :
    ∀ (todo : List String) (d : List FileEntry) (paths : List String)
      (rens : List (String × String))
      (res : List String × List (String × String) × List FileEntry),
      collectLoop dirPath ts todo d paths rens = Except.ok res →
      (∀ x ∈ paths, opusMatch x = none) →
      (∀ r ∈ rens, r.2 = newnameFor dirPath ts) →
      (∀ x ∈ res.1, opusMatch x = none) ∧
        (∀ r ∈ res.2.1, r.2 = newnameFor dirPath ts) := by
  intro todo
  induction todo with
  | nil =>
    intro d paths rens res hok hp hr
    cases Except.ok.inj hok
    exact ⟨hp, hr⟩
  | cons full rest ih =>
    intro d paths rens res hok hp hr
    cases hlk : lookupName d full with
    | none => rw [show collectLoop dirPath ts (full :: rest) d paths rens =
        Except.error (("metadata failed: ") ++ full) from by simp [collectLoop, hlk]] at hok
              exact Except.noConfusion hok
    | some f =>
      by_cases hsz : f.size < threshold
      · cases hm : opusMatch full with
        | none =>
          rw [collectLoop_cons_plain hlk hsz hm] at hok
          refine ih d (paths ++ [full]) rens res hok ?_ hr
          intro x hx
          rcases List.mem_append.mp hx with hx1 | hx2
          · exact hp x hx1
          · rw [List.mem_singleton] at hx2
            subst hx2
            exact hm
        | some old =>
          cases hg : lookupName d old with
          | none =>
            rw [collectLoop_cons_rename_fail hlk hsz hm hg] at hok
            exact Except.noConfusion hok
          | some g =>
            rw [collectLoop_cons_opus hlk hsz hm hg] at hok
            refine ih _ _ _ res hok ?_ ?_
            · intro x hx
              rcases List.mem_append.mp hx with hx1 | hx2
              · exact hp x hx1
              · rw [List.mem_singleton] at hx2
                subst hx2
                exact hts
            · intro r hrr
              rcases List.mem_append.mp hrr with hr1 | hr2
              · exact hr r hr1
              · rw [List.mem_singleton] at hr2
                subst hr2
                rfl
      · rw [collectLoop_cons_skip hlk hsz] at hok
        exact ih d paths rens res hok hp hr

/-- C6, counterexample: non-voice collection *does* perform the `.opus`
rename on a file it includes.  For media type `Mp3`, a directory holding
`D/a.opus` and the glob-matched small file `D/a.opus.mp3`: the regex
matches `D/a.opus.mp3` with whole match `D/a.opus`, that path exists, so
the code renames `D/a.opus` to `D/audio_T.ogg` and pushes the renamed path
into the Mp3 result — one rename performed (second component non-empty)
and its target is the included file. -/
theorem C6_counterexample :
    download_post MediaType.Mp3 ("D") ("T")
        [⟨("D/a.opus"), 5⟩, ⟨("D/a.opus.mp3"), 7⟩] (Except.ok ("")) =
      Except.ok ([("D/audio_T.ogg")],
        [(("D/a.opus"), ("D/audio_T.ogg"))]) := by
  rfl

/-- C6, amended: the `.opus` rename rule is keyed on the file name matching
the regex, not on the Voice media type.  For *every* media type (Voice
included, so the voice half of the claim holds), whenever post-processing
succeeds: no included path still matches `.opus` — every collected file
whose path matched the regex was renamed before inclusion — and every
rename performed targets the `audio_<timestamp>.ogg` name.  Non-voice
collections perform the same rename whenever a glob-matched small file's
path matches the regex (see the counterexample), so "non-voice results
never perform this rename" is false.  Hygiene hypothesis: the rename
target itself does not match the regex (true of the real
`FILE_STORAGE/<uuid>` directories and timestamp format). -/
theorem C6_rename_amended (mt : MediaType) (dirPath ts : String) (d : List FileEntry)
    (ytd : Except String String) (out : List String × List (String × String))
    (hts : opusMatch (newnameFor dirPath ts) = none)
    (hok : download_post mt dirPath ts d ytd = Except.ok out) :
    (∀ x ∈ out.1, opusMatch x = none) ∧
      (∀ r ∈ out.2, r.2 = newnameFor dirPath ts) := by
  unfold download_post at hok
  cases hc : collectLoop dirPath ts
      ((d.filter (fun f => globMatch dirPath mt.as_str f.name)).map (fun f => f.name))
      d [] [] with
  | error e =>
    simp only [hc] at hok
    exact Except.noConfusion hok
  | ok res =>
    obtain ⟨paths, rens, dfin⟩ := res
    simp only [hc] at hok
    by_cases h0 : paths.length = 0
    · rw [if_pos h0] at hok
      cases ytd <;> exact Except.noConfusion hok
    · rw [if_neg h0] at hok
      cases Except.ok.inj hok
      have h := collect_no_opus dirPath ts hts _ d [] [] (paths, rens, dfin) hc
        (fun x hx => absurd hx (List.not_mem_nil x))
        (fun r hrr => absurd hrr (List.not_mem_nil r))
      exact ⟨h.1, h.2⟩

theorem C6_witness :
    opusMatch (("D/audio_T.ogg")) = none :=
  (C6_rename_amended MediaType.Voice ("D") ("T") [⟨("D/b.opus"), 5⟩]
      (Except.ok ("")) ([("D/audio_T.ogg")], [(("D/b.opus"), ("D/audio_T.ogg"))])
      (by decide) (by rfl)).1
    ("D/audio_T.ogg") (List.mem_singleton.mpr rfl)

end Telepirate
